import Mathlib

/-!
Verification of the partytracks client and the partysocket React binding
against their specification.  The definitions below are shallow embeddings
of the TypeScript source: `PartyTracks.ts` (push/pull/close pipelines, the
ice-connection watcher, the outbound-rtp stats poller) and `use-socket.ts`
(the `useStableSocket` effect state machine).  The `BulkRequestDispatcher`
class lives in `Peer.utils`, which is not among the provided source files;
it is modelled from the specification, as marked on its definitions.
-/

set_option linter.unusedVariables false

namespace PartyTracksVerif

/-- Location tag of a track in the SFU protocol, the string union
`"local" | "remote"` of `callsTypes.ts`. -/
inductive TrackLocation where
  | locLocal
  | locRemote
deriving DecidableEq, Repr

/-- The `simulcast` sub-object of `TrackMetadata` in `callsTypes.ts`:
`simulcast?: \x7b preferredRid: string \x7d`. -/
structure SimulcastPref where
  preferredRid : String
deriving DecidableEq, Repr

/-- The `TrackMetadata & ErrorResponse` shape of `callsTypes.ts`.  Every
field is optional in the TypeScript type; `none` models an absent field. -/
structure TrackMetadata where
  location : Option TrackLocation := none
  trackName : Option String := none
  sessionId : Option String := none
  mid : Option String := none
  simulcast : Option SimulcastPref := none
  errorCode : Option String := none
  errorDescription : Option String := none
deriving DecidableEq, Repr

/-- The `TracksResponse` shape of `callsTypes.ts`: an `ErrorResponse`
carrying `tracks?: (TrackMetadata & ErrorResponse)[]` and the
`requiresImmediateRenegotiation` flag. -/
structure TracksResponse where
  requiresImmediateRenegotiation : Bool := false
  tracks : Option (List TrackMetadata) := none
  errorCode : Option String := none
  errorDescription : Option String := none
deriving DecidableEq, Repr

/-- The `RenegotiationResponse` shape of `callsTypes.ts`. -/
structure RenegotiationResponse where
  errorCode : Option String := none
  errorDescription : Option String := none
deriving DecidableEq, Repr

/-- JavaScript truthiness of an optional string, as used by
`if (response.errorCode)`: absent and empty strings are falsy. -/
def strTruthy : Option String → Bool
  | none => false
  | some s => !s.isEmpty

/-- Embeds lines 268 to 272 of `PartyTracks` (`part_001`): the object the
push bulk callback hands to `subscriber.next`, spreading the matched
response entry and then overriding `sessionId` with the current session id
and `location` with `"remote"`. -/
def pushBulkEmit (entry : TrackMetadata) (sessionId : String) : TrackMetadata :=
  { entry with sessionId := some sessionId, location := some .locRemote }

/-- Embeds the final `map` stage of `PartyTracks.push` (lines 382 to 389):
copy the track data and delete its `mid` property. -/
def cleanTrackData (t : TrackMetadata) : TrackMetadata :=
  { t with mid := none }

/-- Embeds the `.then` continuation of `#pushTrackInBulk` (lines 261 to
290): look the subscriber up in the response `tracks` by its transceiver
mid, emit the overridden entry, or error with `Missing TrackData`; a
missing `tracks` array fails the `invariant` call at line 248.  The error
payload is the JavaScript `Error` message, an optional string. -/
def pushTrackInBulkOutcome (resp : TracksResponse) (tmid : String)
    (sessionId : String) : Except (Option String) TrackMetadata :=
  match resp.tracks with
  | none => .error (some "Invariant failed")
  | some ts =>
    match ts.find? (fun t => t.mid == some tmid) with
    | some entry => .ok (pushBulkEmit entry sessionId)
    | none => .error (some "Missing TrackData")

/-- Whether the push bulk callback applies the SFU answer as the remote
description: line 249 guards `setRemoteDescription` with
`if (!response.errorCode)`. -/
def pushAnswerApplied (resp : TracksResponse) : Bool :=
  !(strTruthy resp.errorCode)

/-- The metadata a `push()` subscriber finally receives for a given
response: the bulk emission followed by the mid-stripping `map` stage. -/
def pushEmittedMetadata (resp : TracksResponse) (tmid : String)
    (sessionId : String) : Option TrackMetadata :=
  ((pushTrackInBulkOutcome resp tmid sessionId).map cleanTrackData).toOption

/-- Concrete response entry used to refute claim C3: the SFU reports a
`sessionId` of its own for the pushed track. -/
def c3entry : TrackMetadata :=
  { trackName := some "tA", sessionId := some "S-remote",
    mid := some "0", location := some .locLocal }

/-- Concrete response used to refute claim C3. -/
def c3resp : TracksResponse := { tracks := some [c3entry] }

/-- C3 counterexample: the claim says every field of the matched response
entry other than `mid` is passed through unchanged, but the code also
overwrites `sessionId` with the current session id and `location` with
`"remote"`.  At this concrete input the entry carries
`sessionId = "S-remote"` and `location = "local"`, while the emitted
metadata carries `sessionId = "S-local"` and `location = "remote"`. -/
theorem c3_push_metadata_counterexample :
    c3entry.sessionId = some "S-remote" ∧
    c3entry.location = some TrackLocation.locLocal ∧
    pushEmittedMetadata c3resp "0" "S-local" =
      some { trackName := some "tA", sessionId := some "S-local",
             mid := none, location := some TrackLocation.locRemote } := by
  refine ⟨rfl, rfl, ?_⟩
  decide

/-- C3 (amended): every metadata object emitted by `push()` has its `mid`
removed; its `sessionId` is replaced by the current session id and its
`location` set to `"remote"`; the remaining fields of the matched response
entry (`trackName`, `simulcast`, `errorCode`, `errorDescription`) pass
through unchanged. -/
theorem c3_push_strips_mid (resp : TracksResponse) (tmid sessionId : String)
    (ts : List TrackMetadata) (entry m : TrackMetadata)
    (htracks : resp.tracks = some ts)
    (hfind : ts.find? (fun t => t.mid == some tmid) = some entry)
    (hm : pushEmittedMetadata resp tmid sessionId = some m) :
    m.mid = none ∧ m.sessionId = some sessionId ∧
    m.location = some TrackLocation.locRemote ∧
    m.trackName = entry.trackName ∧ m.simulcast = entry.simulcast ∧
    m.errorCode = entry.errorCode ∧
    m.errorDescription = entry.errorDescription := by
  unfold pushEmittedMetadata pushTrackInBulkOutcome at hm
  simp only [htracks, hfind, Except.map, Except.toOption,
    Option.some.injEq] at hm
  subst hm
  simp [cleanTrackData, pushBulkEmit]

/-- Witness for the amended C3 theorem at a concrete input. -/
theorem c3_push_strips_mid_witness :
    (cleanTrackData (pushBulkEmit c3entry "S-local")).mid = none ∧
    (cleanTrackData (pushBulkEmit c3entry "S-local")).sessionId = some "S-local" ∧
    (cleanTrackData (pushBulkEmit c3entry "S-local")).location = some TrackLocation.locRemote ∧
    (cleanTrackData (pushBulkEmit c3entry "S-local")).trackName = c3entry.trackName ∧
    (cleanTrackData (pushBulkEmit c3entry "S-local")).simulcast = c3entry.simulcast ∧
    (cleanTrackData (pushBulkEmit c3entry "S-local")).errorCode = c3entry.errorCode ∧
    (cleanTrackData (pushBulkEmit c3entry "S-local")).errorDescription = c3entry.errorDescription :=
  c3_push_strips_mid c3resp "0" "S-local" [c3entry] c3entry
    (cleanTrackData (pushBulkEmit c3entry "S-local"))
    (by decide) (by decide) (by decide)

/-- Embeds the error handling of the pull bulk callback, lines 425 to 427
of `part_001`: a truthy `errorCode` in the `tracks/new` pull response
throws `new Error(newTrackResponse.errorDescription)` before any track is
resolved; otherwise the `invariant(newTrackResponse.tracks)` call at line
428 requires the `tracks` array, which is then used to build the track
map.  The renegotiation round trip is modelled by `renegotiationOutcome`
below and checked separately. -/
def pullBatchOutcome (resp : TracksResponse) :
    Except (Option String) (List TrackMetadata) :=
  if strTruthy resp.errorCode then .error resp.errorDescription
  else
    match resp.tracks with
    | none => .error (some "Invariant failed")
    | some ts => .ok ts

/-- Embeds lines 472 to 476 of `part_001`: a truthy `errorCode` in the
renegotiate response throws `new Error(errorDescription)`; otherwise the
callback proceeds (waiting for the stable signaling state). -/
def renegotiationOutcome (resp : RenegotiationResponse) :
    Except (Option String) Unit :=
  if strTruthy resp.errorCode then .error resp.errorDescription
  else .ok ()

/-- Concrete push response used to refute claim C5: a non-empty top-level
`errorCode` together with a `tracks` entry matching the pushing
transceiver mid. -/
def c5resp : TracksResponse :=
  { errorCode := some "E500", errorDescription := some "boom",
    tracks := some [{ trackName := some "tA", mid := some "0" }] }

/-- C5 counterexample: the claim says a push `tracks/new` response with a
non-empty `errorCode` makes the push stream error with
`errorDescription`, but the push bulk callback never throws on
`errorCode` (it merely skips `setRemoteDescription`); at this concrete
input the subscriber receives an ordinary emission, not an error. -/
theorem c5_error_code_counterexample :
    strTruthy c5resp.errorCode = true ∧
    pushTrackInBulkOutcome c5resp "0" "S1" =
      .ok { trackName := some "tA", mid := some "0",
            sessionId := some "S1",
            location := some TrackLocation.locRemote } :=
  ⟨rfl, rfl⟩

/-- C5 (amended): for the pull `tracks/new` response and the renegotiate
response, a non-empty `errorCode` makes the operation error with the
response `errorDescription` instead of producing a value; the push
`tracks/new` callback, by contrast, never inspects `errorCode` for its
outcome (the subscriber outcome is unchanged if `errorCode` is erased),
and the only effect of a truthy push `errorCode` is that the SFU answer is
not applied as the remote description. -/
theorem c5_error_code_propagation (resp : TracksResponse)
    (rr : RenegotiationResponse) (tmid sessionId : String)
    (herr : strTruthy resp.errorCode = true) :
    pullBatchOutcome resp = .error resp.errorDescription ∧
    (strTruthy rr.errorCode = true →
      renegotiationOutcome rr = .error rr.errorDescription) ∧
    pushTrackInBulkOutcome resp tmid sessionId =
      pushTrackInBulkOutcome { resp with errorCode := none } tmid sessionId ∧
    pushAnswerApplied resp = false := by
  refine ⟨?_, ?_, ?_, ?_⟩
  · simp [pullBatchOutcome, herr]
  · intro h
    simp [renegotiationOutcome, h]
  · simp [pushTrackInBulkOutcome]
  · simp [pushAnswerApplied, herr]

/-- Witness for the amended C5 theorem at a concrete input. -/
theorem c5_error_code_propagation_witness :
    pullBatchOutcome c5resp = .error c5resp.errorDescription ∧
    (strTruthy (RenegotiationResponse.mk (some "E1") (some "renoFail")).errorCode = true →
      renegotiationOutcome (RenegotiationResponse.mk (some "E1") (some "renoFail")) =
        .error (RenegotiationResponse.mk (some "E1") (some "renoFail")).errorDescription) ∧
    pushTrackInBulkOutcome c5resp "0" "S1" =
      pushTrackInBulkOutcome { c5resp with errorCode := none } "0" "S1" ∧
    pushAnswerApplied c5resp = false :=
  c5_error_code_propagation c5resp
    (RenegotiationResponse.mk (some "E1") (some "renoFail")) "0" "S1"
    (by decide)

/-- Modelled from the spec: one `doBulkRequest` arrival on the
`BulkRequestDispatcher` (class in `Peer.utils`, which is not among the
provided source files).  Section 4.2: when no batch is open a new batch is
opened; the item joins the open batch; the batch flushes immediately once
`items.length` reaches the capacity, and the dispatcher then opens the
next batch for the overflow caller. -/
def dispatcherEnqueue {I : Type} (capacity : Nat) (batch : Option (List I))
    (i : I) : Option (List I) × List (List I) :=
  let items := batch.getD [] ++ [i]
  if capacity ≤ items.length then (none, [items]) else (some items, [])

/-- Fold step of a tick: thread the open batch and accumulate flushes. -/
def dispatcherStep {I : Type} (capacity : Nat)
    (acc : Option (List I) × List (List I)) (i : I) :
    Option (List I) × List (List I) :=
  let next := dispatcherEnqueue capacity acc.1 i
  (next.1, acc.2 ++ next.2)

/-- Modelled from the spec: all `doBulkRequest` calls of one microtask
tick on an idle dispatcher, in arrival order; any batch still open at the
end of the tick flushes then.  Returns the list of flushed batches, one
`batchFn` invocation each. -/
def dispatcherTick {I : Type} (capacity : Nat) (calls : List I) :
    List (List I) :=
  let folded := calls.foldl (dispatcherStep capacity)
    ((none : Option (List I)), ([] : List (List I)))
  folded.2 ++ (match folded.1 with
    | some items => [items]
    | none => [])

/-- Modelled from the spec: when a batch flushes, `batchFn(items)` runs
once and the single outcome is delivered to every awaiting caller: each
promise resolves with the identical batched result, or rejects with the
identical error. -/
def dispatcherResults {I E O : Type} (batchFn : List I → Except E O)
    (items : List I) : List (Except E O) :=
  match batchFn items with
  | .ok o => items.map (fun _ => Except.ok o)
  | .error e => items.map (fun _ => Except.error e)

theorem dispatcherStep_flush {I : Type} (capacity : Nat) (acc : List I)
    (fl : List (List I)) (i : I) (h : capacity ≤ acc.length + 1) :
    dispatcherStep capacity (some acc, fl) i = (none, fl ++ [acc ++ [i]]) := by
  simp [dispatcherStep, dispatcherEnqueue, h]

theorem dispatcherStep_open {I : Type} (capacity : Nat) (acc : List I)
    (fl : List (List I)) (i : I) (h : ¬ capacity ≤ acc.length + 1) :
    dispatcherStep capacity (some acc, fl) i = (some (acc ++ [i]), fl) := by
  simp [dispatcherStep, dispatcherEnqueue, h]

theorem dispatcherTick_aux {I : Type} (capacity : Nat) :
    ∀ (calls acc : List I) (fl : List (List I)),
    acc.length + calls.length ≤ capacity →
    calls.foldl (dispatcherStep capacity) (some acc, fl) =
      (if acc.length + calls.length = capacity ∧ 0 < calls.length
        then ((none : Option (List I)), fl ++ [acc ++ calls])
        else (some (acc ++ calls), fl)) := by
  intro calls
  induction calls with
  | nil =>
    intro acc fl hle
    simp
  | cons i rest ih =>
    intro acc fl hle
    simp only [List.foldl_cons]
    by_cases hflush : capacity ≤ acc.length + 1
    · have hrest : rest = [] := by
        rcases rest with _ | ⟨r, rs⟩
        · rfl
        · exfalso
          simp only [List.length_cons] at hle
          omega
      subst hrest
      rw [dispatcherStep_flush capacity acc fl i hflush]
      have hcap : acc.length + 1 = capacity := by
        simp only [List.length_cons, List.length_nil] at hle
        omega
      simp only [List.foldl_nil]
      rw [if_pos ⟨by simpa using hcap, by simp⟩]
    · rw [dispatcherStep_open capacity acc fl i hflush]
      rw [ih (acc ++ [i]) fl (by simp only [List.length_append,
        List.length_cons, List.length_nil] at hle ⊢; omega)]
      rcases rest with _ | ⟨r, rs⟩
      · rw [if_neg (by simp), if_neg (by
          simp only [List.length_cons, List.length_nil]
          intro hc
          omega)]
        simp
      · by_cases hcap : acc.length + (i :: r :: rs).length = capacity
        · rw [if_pos ⟨by simp only [List.length_append, List.length_cons,
            List.length_nil] at hcap ⊢; omega, by simp⟩]
          rw [if_pos ⟨hcap, by simp⟩]
          simp
        · rw [if_neg (by
            simp only [List.length_append, List.length_cons,
              List.length_nil] at hcap ⊢
            intro hc
            exact hcap (by omega))]
          rw [if_neg (fun hc => hcap hc.1)]
          simp

/-- The calls of one tick, at most `capacity` of them, form exactly one
flushed batch containing every call in order. -/
theorem dispatcherTick_single {I : Type} (capacity : Nat)
    (calls : List I) (h1 : calls ≠ []) (h2 : calls.length ≤ capacity) :
    dispatcherTick capacity calls = [calls] := by
  rcases calls with _ | ⟨i, rest⟩
  · exact absurd rfl h1
  · unfold dispatcherTick
    simp only [List.foldl_cons]
    have hstep0 : dispatcherStep capacity
        ((none : Option (List I)), ([] : List (List I))) i =
        (if capacity ≤ 1 then (none, [[i]]) else (some [i], [])) := by
      by_cases hc : capacity ≤ 1 <;>
        simp [dispatcherStep, dispatcherEnqueue, hc]
    rw [hstep0]
    by_cases hone : capacity ≤ 1
    · have hrest : rest = [] := by
        rcases rest with _ | ⟨r, rs⟩
        · rfl
        · exfalso
          simp only [List.length_cons] at h2
          omega
      subst hrest
      rw [if_pos hone]
      simp
    · rw [if_neg hone]
      rw [dispatcherTick_aux capacity rest [i] []
        (by simp only [List.length_cons, List.length_nil] at h2 ⊢; omega)]
      by_cases hfin : ([i] : List I).length + rest.length = capacity ∧ 0 < rest.length
      · rw [if_pos hfin]
        simp
      · rw [if_neg hfin]
        simp

/-- One enqueued push subscription: the item handed to
`#pushTrackDispatcher.doBulkRequest` at line 223 of `part_001`,
`\x7b trackName, transceiver \x7d`; of the transceiver only its mid is
relevant to the request body. -/
structure PushItem where
  trackName : String
  transceiverMid : Option String
deriving DecidableEq, Repr

/-- The body of the push `POST /sessions/(id)/tracks/new` request, lines
230 to 240 of `part_001`: the offer SDP plus one
`\x7b trackName, mid, location: "local" \x7d` entry per batched item. -/
structure PushTracksRequest where
  offerSdp : String
  tracks : List TrackMetadata
deriving DecidableEq, Repr

/-- Embeds the request construction of the push batch callback (lines 230
to 240 of `part_001`). -/
def pushRequestBody (offerSdp : String) (items : List PushItem) :
    PushTracksRequest :=
  { offerSdp := offerSdp,
    tracks := items.map (fun t =>
      { trackName := some t.trackName, mid := t.transceiverMid,
        location := some .locLocal }) }

/-- The push `tracks/new` requests a tick issues: one POST per flushed
batch, each built by the batch callback. -/
def tickPushRequests (capacity : Nat) (offerSdp : String)
    (calls : List PushItem) : List PushTracksRequest :=
  (dispatcherTick capacity calls).map (pushRequestBody offerSdp)

theorem dispatcherFold_shift {I : Type} (capacity : Nat) :
    ∀ (calls : List I) (st : Option (List I)) (fl : List (List I)),
    calls.foldl (dispatcherStep capacity) (st, fl) =
      ((calls.foldl (dispatcherStep capacity) (st, [])).1,
       fl ++ (calls.foldl (dispatcherStep capacity) (st, [])).2) := by
  intro calls
  induction calls with
  | nil =>
    intro st fl
    simp
  | cons i rest ih =>
    intro st fl
    simp only [List.foldl_cons]
    rw [show dispatcherStep capacity (st, fl) i =
      ((dispatcherEnqueue capacity st i).1,
       fl ++ (dispatcherEnqueue capacity st i).2) from rfl]
    rw [show dispatcherStep capacity (st, ([] : List (List I))) i =
      ((dispatcherEnqueue capacity st i).1,
       (dispatcherEnqueue capacity st i).2) from by
        simp [dispatcherStep]]
    rw [ih (dispatcherEnqueue capacity st i).1
      (fl ++ (dispatcherEnqueue capacity st i).2)]
    rw [ih (dispatcherEnqueue capacity st i).1
      (dispatcherEnqueue capacity st i).2]
    simp

theorem dispatcherFold_full {I : Type} (capacity : Nat) (l : List I)
    (hlen : l.length = capacity) (hc : 1 ≤ capacity) :
    l.foldl (dispatcherStep capacity)
      ((none : Option (List I)), ([] : List (List I))) = (none, [l]) := by
  rcases l with _ | ⟨i, rest⟩
  · simp at hlen
    omega
  · simp only [List.foldl_cons]
    by_cases hone : capacity ≤ 1
    · have hcap : capacity = 1 := by omega
      have hrest : rest = [] := by
        rcases rest with _ | ⟨r, rs⟩
        · rfl
        · exfalso
          simp [hcap] at hlen
      subst hrest
      simp [dispatcherStep, dispatcherEnqueue, hcap]
    · rw [show dispatcherStep capacity
        ((none : Option (List I)), ([] : List (List I))) i =
        (some [i], []) from by
          simp [dispatcherStep, dispatcherEnqueue]
          omega]
      rw [dispatcherTick_aux capacity rest [i] []
        (by simp only [List.length_cons] at hlen ⊢; simp; omega)]
      rw [if_pos ⟨by simp only [List.length_cons] at hlen ⊢; simp; omega,
        by simp only [List.length_cons] at hlen; omega⟩]
      simp

theorem dispatcherTick_overflow {I : Type} (capacity : Nat)
    (calls : List I) (hc : 1 ≤ capacity) (h : capacity < calls.length) :
    dispatcherTick capacity calls =
      calls.take capacity :: dispatcherTick capacity (calls.drop capacity) := by
  have htake : (calls.take capacity).length = capacity := by
    simp only [List.length_take]
    omega
  have hfold : calls.foldl (dispatcherStep capacity)
      ((none : Option (List I)), ([] : List (List I))) =
      (((calls.drop capacity).foldl (dispatcherStep capacity)
          (none, [])).1,
       [calls.take capacity]
         ++ ((calls.drop capacity).foldl (dispatcherStep capacity)
              (none, [])).2) := by
    conv_lhs => rw [← List.take_append_drop capacity calls]
    rw [List.foldl_append]
    rw [dispatcherFold_full capacity (calls.take capacity) htake hc]
    rw [dispatcherFold_shift capacity (calls.drop capacity) none
      [calls.take capacity]]
  simp only [dispatcherTick]
  rw [hfold]
  simp

/-- Consecutive chunks of at most `c` elements; for `1 ≤ c` this is the
partition of a tick into flushed batches the spec describes: full batches
of exactly `c` calls, then the remainder. -/
def chunksOf {I : Type} (c : Nat) : List I → List (List I)
  | [] => []
  | i :: rest => (i :: rest.take (c - 1)) :: chunksOf c (rest.drop (c - 1))
termination_by l => l.length
decreasing_by
  simp only [List.length_drop, List.length_cons]
  omega

theorem dispatcherTick_chunksOf_aux {I : Type} (capacity : Nat)
    (hc : 1 ≤ capacity) :
    ∀ (n : Nat) (calls : List I), calls.length ≤ n →
    dispatcherTick capacity calls = chunksOf capacity calls := by
  intro n
  induction n with
  | zero =>
    intro calls h
    have hnil : calls = [] := List.length_eq_zero.mp (by omega)
    subst hnil
    simp [dispatcherTick, chunksOf]
  | succ n ih =>
    intro calls h
    rcases calls with _ | ⟨i, rest⟩
    · simp [dispatcherTick, chunksOf]
    · by_cases hcap : (i :: rest).length ≤ capacity
      · rw [dispatcherTick_single capacity (i :: rest) (by simp) hcap]
        have h1 : rest.take (capacity - 1) = rest :=
          List.take_of_length_le (by
            simp only [List.length_cons] at hcap
            omega)
        have h2 : rest.drop (capacity - 1) = [] :=
          List.drop_eq_nil_of_le (by
            simp only [List.length_cons] at hcap
            omega)
        simp [chunksOf, h1, h2]
      · push_neg at hcap
        rw [dispatcherTick_overflow capacity (i :: rest) hc hcap]
        rw [ih ((i :: rest).drop capacity) (by
          simp only [List.length_drop, List.length_cons] at h ⊢
          omega)]
        have ht : (i :: rest).take capacity = i :: rest.take (capacity - 1) := by
          rcases capacity with _ | c
          · omega
          · simp [List.take_succ_cons]
        have hd : (i :: rest).drop capacity = rest.drop (capacity - 1) := by
          rcases capacity with _ | c
          · omega
          · simp [List.drop_succ_cons]
        rw [ht, hd]
        conv_rhs => rw [chunksOf]

theorem dispatcherTick_eq_chunksOf {I : Type} (capacity : Nat)
    (hc : 1 ≤ capacity) (calls : List I) :
    dispatcherTick capacity calls = chunksOf capacity calls :=
  dispatcherTick_chunksOf_aux capacity hc calls.length calls le_rfl

theorem chunksOf_flatten_aux {I : Type} (capacity : Nat) :
    ∀ (n : Nat) (l : List I), l.length ≤ n →
    (chunksOf capacity l).flatten = l := by
  intro n
  induction n with
  | zero =>
    intro l h
    have hnil : l = [] := List.length_eq_zero.mp (by omega)
    subst hnil
    simp [chunksOf]
  | succ n ih =>
    intro l h
    rcases l with _ | ⟨i, rest⟩
    · simp [chunksOf]
    · rw [chunksOf]
      rw [List.flatten_cons]
      rw [ih (rest.drop (capacity - 1)) (by
        simp only [List.length_drop]
        simp only [List.length_cons] at h
        omega)]
      simp [List.take_append_drop]

theorem chunksOf_bounds_aux {I : Type} (capacity : Nat)
    (hc : 1 ≤ capacity) :
    ∀ (n : Nat) (l : List I), l.length ≤ n →
    ∀ b ∈ chunksOf capacity l, b ≠ [] ∧ b.length ≤ capacity := by
  intro n
  induction n with
  | zero =>
    intro l h b hb
    have hnil : l = [] := List.length_eq_zero.mp (by omega)
    subst hnil
    simp [chunksOf] at hb
  | succ n ih =>
    intro l h b hb
    rcases l with _ | ⟨i, rest⟩
    · simp [chunksOf] at hb
    · rw [chunksOf] at hb
      simp only [List.mem_cons] at hb
      rcases hb with rfl | hb
      · refine ⟨by simp, ?_⟩
        simp only [List.length_cons, List.length_take]
        omega
      · exact ih (rest.drop (capacity - 1)) (by
          simp only [List.length_drop]
          simp only [List.length_cons] at h
          omega) b hb

/-- Overflowing tick used to refute C1: 33 same-tick push subscriptions
on the capacity-32 dispatcher. -/
def c1overflow : List PushItem :=
  List.replicate 33 (PushItem.mk "t" (some "0"))

/-- C1 counterexample: the claim says the batch callback runs exactly once
and exactly one `tracks/new` POST is issued for every same-tick set of
push subscriptions, but the dispatcher flushes a batch as soon as it
reaches its capacity of 32 (spec 4.2; capacity 32 at line 159 of
`part_001`): 33 same-tick calls flush two batches, so the callback runs
twice and two POSTs are issued. -/
theorem c1_capacity_counterexample :
    c1overflow.length = 33 ∧
    (dispatcherTick 32 c1overflow).length = 2 ∧
    (tickPushRequests 32 "sdpO" c1overflow).length = 2 := by
  refine ⟨by decide, by decide, by decide⟩

/-- C1 (amended): the calls of one microtask tick on an idle dispatcher
are partitioned, in arrival order, into consecutive batches of at most
the capacity 32 (a batch flushes the moment it reaches capacity and the
overflow caller opens the next batch); the batch callback runs exactly
once per batch, so one push `tracks/new` POST is issued per batch, whose
`tracks` array has one `(trackName, mid, location "local")` entry per
batched subscriber in order; in particular, with at most 32 same-tick
subscriptions exactly one POST is issued containing one entry per
subscriber; every subscriber of a batch resolves with that batch
callback result, identical for all of them, and if the callback rejects,
every subscriber of the batch rejects with that same error. -/
theorem c1_push_bulk_batched (calls : List PushItem) (offerSdp : String) :
    dispatcherTick 32 calls = chunksOf 32 calls ∧
    (dispatcherTick 32 calls).flatten = calls ∧
    (∀ b ∈ dispatcherTick 32 calls, b ≠ [] ∧ b.length ≤ 32) ∧
    (∀ (items : List PushItem),
      (pushRequestBody offerSdp items).tracks.length = items.length) ∧
    (∀ (items : List PushItem) (k : Nat) (p : PushItem),
      items[k]? = some p →
      (pushRequestBody offerSdp items).tracks[k]? =
        some { trackName := some p.trackName, mid := p.transceiverMid,
               location := some TrackLocation.locLocal }) ∧
    (calls ≠ [] → calls.length ≤ 32 →
      tickPushRequests 32 offerSdp calls = [pushRequestBody offerSdp calls]) ∧
    (∀ (items : List PushItem)
      (batchFn : List PushItem → Except (Option String) (List TrackMetadata))
      (o : List TrackMetadata), batchFn items = .ok o →
      dispatcherResults batchFn items = items.map (fun _ => Except.ok o)) ∧
    (∀ (items : List PushItem)
      (batchFn : List PushItem → Except (Option String) (List TrackMetadata))
      (e : Option String), batchFn items = .error e →
      dispatcherResults batchFn items =
        items.map (fun _ => Except.error e)) := by
  refine ⟨?_, ?_, ?_, ?_, ?_, ?_, ?_, ?_⟩
  · exact dispatcherTick_eq_chunksOf 32 (by omega) calls
  · rw [dispatcherTick_eq_chunksOf 32 (by omega) calls]
    exact chunksOf_flatten_aux 32 calls.length calls le_rfl
  · intro b hb
    rw [dispatcherTick_eq_chunksOf 32 (by omega) calls] at hb
    exact chunksOf_bounds_aux 32 (by omega) calls.length calls le_rfl b hb
  · intro items
    simp [pushRequestBody]
  · intro items k p hk
    simp [pushRequestBody, List.getElem?_map, hk]
  · intro h1 h2
    unfold tickPushRequests
    rw [dispatcherTick_single 32 calls h1 h2]
    simp
  · intro items batchFn o hok
    simp [dispatcherResults, hok]
  · intro items batchFn e herr
    simp [dispatcherResults, herr]

/-- Concrete two-subscriber tick used by the C1 witness. -/
def c1calls : List PushItem :=
  [PushItem.mk "tA" (some "0"), PushItem.mk "tB" (some "1")]

/-- Witness for the amended C1 theorem at a concrete two-subscriber
tick. -/
theorem c1_push_bulk_batched_witness :
    dispatcherTick 32 c1calls = chunksOf 32 c1calls ∧
    (dispatcherTick 32 c1calls).flatten = c1calls ∧
    (∀ b ∈ dispatcherTick 32 c1calls, b ≠ [] ∧ b.length ≤ 32) ∧
    (∀ (items : List PushItem),
      (pushRequestBody "sdpO" items).tracks.length = items.length) ∧
    (∀ (items : List PushItem) (k : Nat) (p : PushItem),
      items[k]? = some p →
      (pushRequestBody "sdpO" items).tracks[k]? =
        some { trackName := some p.trackName, mid := p.transceiverMid,
               location := some TrackLocation.locLocal }) ∧
    (c1calls ≠ [] → c1calls.length ≤ 32 →
      tickPushRequests 32 "sdpO" c1calls = [pushRequestBody "sdpO" c1calls]) ∧
    (∀ (items : List PushItem)
      (batchFn : List PushItem → Except (Option String) (List TrackMetadata))
      (o : List TrackMetadata), batchFn items = .ok o →
      dispatcherResults batchFn items = items.map (fun _ => Except.ok o)) ∧
    (∀ (items : List PushItem)
      (batchFn : List PushItem → Except (Option String) (List TrackMetadata))
      (e : Option String), batchFn items = .error e →
      dispatcherResults batchFn items =
        items.map (fun _ => Except.error e)) :=
  c1_push_bulk_batched c1calls "sdpO"

/-- One entry of an `RTCStatsReport` as inspected by
`waitForTransceiverToSendData` (lines 683 to 687 of `part_001`): only the
`type` tag and the cumulative `bytesSent` counter are read. -/
structure RTCStatEntry where
  statType : String
  bytesSent : Nat
deriving DecidableEq, Repr

/-- Embeds the `stats.forEach` scan of lines 682 to 687: `dataFound` is
set iff some stat has `type === "outbound-rtp"` and `bytesSent > 0`. -/
def statsHaveOutboundData (stats : List RTCStatEntry) : Bool :=
  stats.any (fun s => s.statType == "outbound-rtp" && decide (0 < s.bytesSent))

/-- Embeds line 699 of `part_001`:
`delay = Math.min(delay * 1.1, maxDelay)` with `maxDelay = 100`. -/
def nextDelay (d : ℚ) : ℚ := min (d * (11 / 10)) 100

/-- The sequence of polling delays: the initial `delay = 1` (line 670) and
its update after each unsuccessful check. -/
def delaySeq : Nat → ℚ
  | 0 => 1
  | n + 1 => nextDelay (delaySeq n)

/-- Index of the first poll whose stats show outbound data. -/
def firstDataIdx : List (List RTCStatEntry) → Option Nat
  | [] => none
  | p :: rest =>
    if statsHaveOutboundData p then some 0
    else (firstDataIdx rest).map (· + 1)

/-- Embeds the `checkStats` loop of `waitForTransceiverToSendData` (lines
676 to 703): poll `k` runs only while not cancelled (`cancelAt` is the
number of checks that run before the cleanup function flips `cancelled`);
`onDataSent` fires at the first poll showing outbound data, and the
returned value is the index of the poll at which the emission happened,
`none` when the probe is cancelled first or data never appears. -/
def pollEmission : List (List RTCStatEntry) → Nat → Option Nat
  | _, 0 => none
  | [], _ + 1 => none
  | p :: rest, cancelAt + 1 =>
    if statsHaveOutboundData p then some 0
    else (pollEmission rest cancelAt).map (· + 1)

theorem pollEmission_eq (polls : List (List RTCStatEntry)) :
    ∀ (cancelAt : Nat), pollEmission polls cancelAt =
      match firstDataIdx polls with
      | some i => if i < cancelAt then some i else none
      | none => none := by
  induction polls with
  | nil =>
    intro cancelAt
    rcases cancelAt with _ | c <;> simp [pollEmission, firstDataIdx]
  | cons p rest ih =>
    intro cancelAt
    rcases cancelAt with _ | c
    · rcases hfd : firstDataIdx (p :: rest) with _ | i <;>
        simp [pollEmission, hfd]
    · by_cases hp : statsHaveOutboundData p
      · simp [pollEmission, firstDataIdx, hp]
      · simp only [pollEmission, firstDataIdx, hp, Bool.false_eq_true,
          if_neg]
        rw [ih c]
        rcases hfd : firstDataIdx rest with _ | j
        · simp
        · by_cases hj : j < c
          · have hj2 : j + 1 < c + 1 := by omega
            simp [hj, hj2]
          · have hj2 : ¬ (j + 1 < c + 1) := by omega
            simp [hj, hj2]

theorem pollEmission_iff (polls : List (List RTCStatEntry))
    (cancelAt i : Nat) :
    pollEmission polls cancelAt = some i ↔
      firstDataIdx polls = some i ∧ i < cancelAt := by
  rw [pollEmission_eq]
  rcases hfd : firstDataIdx polls with _ | j
  · simp
  · simp only [Option.some.injEq]
    by_cases hj : j < cancelAt
    · simp only [hj, if_pos]
      constructor
      · intro h
        injection h with h
        exact ⟨h, by omega⟩
      · rintro ⟨rfl, h⟩
        rfl
    · simp only [hj, if_neg]
      constructor
      · intro h
        exact absurd h (by simp)
      · rintro ⟨rfl, h⟩
        exact absurd h hj

theorem firstDataIdx_spec (polls : List (List RTCStatEntry)) :
    ∀ (i : Nat), firstDataIdx polls = some i →
    ∃ stats, polls[i]? = some stats ∧ statsHaveOutboundData stats = true ∧
      ∀ j, j < i → ∀ s, polls[j]? = some s →
        statsHaveOutboundData s = false := by
  induction polls with
  | nil =>
    intro i h
    simp [firstDataIdx] at h
  | cons p rest ih =>
    intro i h
    by_cases hp : statsHaveOutboundData p
    · simp only [firstDataIdx, hp, if_pos, Option.some.injEq] at h
      subst h
      exact ⟨p, by simp, hp, fun j hj => by omega⟩
    · simp only [firstDataIdx, hp, Bool.false_eq_true, if_neg] at h
      rcases hfd : firstDataIdx rest with _ | j
      · rw [hfd] at h
        simp at h
      · rw [hfd] at h
        simp at h
        subst h
        obtain ⟨stats, hs1, hs2, hs3⟩ := ih j hfd
        refine ⟨stats, by simpa using hs1, hs2, ?_⟩
        intro k hk s hks
        rcases k with _ | k
        · simp only [List.getElem?_cons_zero, Option.some.injEq] at hks
          subst hks
          simpa using hp
        · exact hs3 k (by omega) s (by simpa using hks)

theorem delaySeq_closed : ∀ (n : Nat),
    delaySeq n = min ((11 / 10 : ℚ) ^ n) 100 := by
  intro n
  induction n with
  | zero => simp [delaySeq]
  | succ n ih =>
    have hb : (1 : ℚ) ≤ 11 / 10 := by norm_num
    rcases le_total ((11 / 10 : ℚ) ^ n) 100 with h | h
    · rw [delaySeq, ih, nextDelay, min_eq_left h, ← pow_succ]
    · have h2 : (100 : ℚ) ≤ (11 / 10 : ℚ) ^ (n + 1) := by
        calc (100 : ℚ) ≤ (11 / 10 : ℚ) ^ n := h
          _ ≤ (11 / 10 : ℚ) ^ (n + 1) :=
            pow_le_pow_right₀ (by norm_num) (by omega)
      rw [delaySeq, ih, nextDelay, min_eq_right h, min_eq_right h2]
      rw [min_eq_right (by norm_num)]

/-- C2: for every push subscription, metadata reaches the downstream
subscriber only at the first stats poll whose `outbound-rtp` entry shows
`bytesSent > 0`, and every earlier poll showed none; cancelling the probe
(unsubscribing) before that poll runs means no metadata is ever emitted;
the polling delays follow the exponential law
`delay(n) = min(1 * 1.1 ^ n, 100)`, nondecreasing from 1 and capped at
100 ms. -/
theorem c2_emission_after_outbound_rtp (polls : List (List RTCStatEntry))
    (cancelAt i n : Nat) :
    (pollEmission polls cancelAt = some i ↔
      firstDataIdx polls = some i ∧ i < cancelAt) ∧
    (firstDataIdx polls = some i →
      ∃ stats, polls[i]? = some stats ∧ statsHaveOutboundData stats = true ∧
        ∀ j, j < i → ∀ s, polls[j]? = some s →
          statsHaveOutboundData s = false) ∧
    (firstDataIdx polls = none → pollEmission polls cancelAt = none) ∧
    delaySeq n = min ((11 / 10 : ℚ) ^ n) 100 ∧
    delaySeq n ≤ delaySeq (n + 1) ∧
    (1 : ℚ) ≤ delaySeq n ∧ delaySeq n ≤ 100 := by
  refine ⟨pollEmission_iff polls cancelAt i, firstDataIdx_spec polls i,
    ?_, delaySeq_closed n, ?_, ?_, ?_⟩
  · intro hnone
    rcases h : pollEmission polls cancelAt with _ | j
    · rfl
    · have := (pollEmission_iff polls cancelAt j).mp h
      rw [hnone] at this
      exact absurd this.1 (by simp)
  · rw [delaySeq_closed n, delaySeq_closed (n + 1)]
    exact min_le_min (pow_le_pow_right₀ (by norm_num) (by omega)) le_rfl
  · rw [delaySeq_closed n]
    exact le_min (one_le_pow₀ (by norm_num)) (by norm_num)
  · rw [delaySeq_closed n]
    exact min_le_right _ _

/-- Concrete poll trace for the C2 witness: no stats, then an
`outbound-rtp` stat with zero bytes, then one with data. -/
def c2polls : List (List RTCStatEntry) :=
  [[], [RTCStatEntry.mk "outbound-rtp" 0],
   [RTCStatEntry.mk "inbound-rtp" 9, RTCStatEntry.mk "outbound-rtp" 42]]

/-- Witness for C2 at a concrete poll trace. -/
theorem c2_emission_after_outbound_rtp_witness :
    (pollEmission c2polls 5 = some 2 ↔
      firstDataIdx c2polls = some 2 ∧ 2 < 5) ∧
    (firstDataIdx c2polls = some 2 →
      ∃ stats, c2polls[2]? = some stats ∧
        statsHaveOutboundData stats = true ∧
        ∀ j, j < 2 → ∀ s, c2polls[j]? = some s →
          statsHaveOutboundData s = false) ∧
    (firstDataIdx c2polls = none → pollEmission c2polls 5 = none) ∧
    delaySeq 3 = min ((11 / 10 : ℚ) ^ 3) 100 ∧
    delaySeq 3 ≤ delaySeq 4 ∧
    (1 : ℚ) ≤ delaySeq 3 ∧ delaySeq 3 ≤ 100 :=
  c2_emission_after_outbound_rtp c2polls 5 2 3

/-- One session combo as emitted by `session$`: the `sessionId` of the
current peer connection (the connection itself is identified by a
number). -/
structure SessionCombo where
  pcId : Nat
  sessionId : String
deriving DecidableEq, Repr

/-- An input event of the `push()` pipeline (lines 310 to 355 of
`part_001`): an emission of the shared source track stream or an emission
of `session$`. -/
inductive PushSourceEvent where
  | trackEmit
  | sessionEmit (s : SessionCombo)
deriving DecidableEq, Repr

/-- Whether an event is a source-track emission. -/
def isTrackEmit : PushSourceEvent → Bool
  | .trackEmit => true
  | .sessionEmit _ => false

/-- State of the `push()` wiring pipeline.  `latestStable` is the latest
(and only) emission of `stableId$ = track$.pipe(take(1), map(() =>
crypto.randomUUID()))`; `mintCount` counts `randomUUID` calls;
`latestSession` is the latest `session$` value held by `combineLatest`;
`pushes` lists the `(trackName, sessionId)` arguments of every
`#pushTrackInBulk` call made through the `switchMap` at lines 345 to
355. -/
structure PushPipeState where
  latestStable : Option String
  mintCount : Nat
  latestSession : Option SessionCombo
  pushes : List (String × String)
deriving DecidableEq, Repr

/-- Initial pipeline state: nothing emitted yet. -/
def pushPipeInit : PushPipeState :=
  { latestStable := none, mintCount := 0, latestSession := none,
    pushes := [] }

/-- Embeds one step of the `push()` wiring, with `mint` standing for
`crypto.randomUUID`.  A track emission mints the stable id only if
`stableId$` has not emitted yet (`take(1)` completes the stream after its
single emission); a session emission updates the latest session; whenever
`combineLatest([stableId$, session$])` fires with both present, the
`switchMap` re-executes `#pushTrackInBulk` with the stable id as the
`trackName`. -/
def pushPipeStep (mint : Nat → String) (st : PushPipeState) :
    PushSourceEvent → PushPipeState
  | .trackEmit =>
    match st.latestStable with
    | some _ => st
    | none =>
      let sid := mint st.mintCount
      let st2 := { st with latestStable := some sid,
                           mintCount := st.mintCount + 1 }
      match st.latestSession with
      | some s => { st2 with pushes := st2.pushes ++ [(sid, s.sessionId)] }
      | none => st2
  | .sessionEmit s =>
    let st2 := { st with latestSession := some s }
    match st.latestStable with
    | some sid => { st2 with pushes := st2.pushes ++ [(sid, s.sessionId)] }
    | none => st2

/-- The `push()` wiring run over a whole event trace. -/
def pushPipeRun (mint : Nat → String) (events : List PushSourceEvent) :
    PushPipeState :=
  events.foldl (pushPipeStep mint) pushPipeInit

theorem pushPipeStep_inv (mint : Nat → String) (st : PushPipeState)
    (e : PushSourceEvent)
    (hst : st.latestStable = none ∧ st.mintCount = 0 ∨
      st.latestStable = some (mint 0) ∧ st.mintCount = 1)
    (hp : ∀ p ∈ st.pushes, p.1 = mint 0) :
    ((pushPipeStep mint st e).latestStable = none ∧
        (pushPipeStep mint st e).mintCount = 0 ∨
      (pushPipeStep mint st e).latestStable = some (mint 0) ∧
        (pushPipeStep mint st e).mintCount = 1) ∧
    (∀ p ∈ (pushPipeStep mint st e).pushes, p.1 = mint 0) ∧
    ((pushPipeStep mint st e).mintCount = 1 ↔
      st.mintCount = 1 ∨ isTrackEmit e = true) := by
  rcases e with _ | s
  · rcases hst with ⟨hnone, hzero⟩ | ⟨hsome, hone⟩
    · rcases hsess : st.latestSession with _ | s0
      · have hstep : pushPipeStep mint st .trackEmit =
            { st with
              latestStable := some (mint st.mintCount),
              mintCount := st.mintCount + 1 } := by
          simp [pushPipeStep, hnone, hsess]
        rw [hstep]
        refine ⟨Or.inr ⟨by rw [hzero], by rw [hzero]⟩, hp, ?_⟩
        simp [isTrackEmit, hzero]
      · refine ⟨Or.inr ⟨?_, ?_⟩, ?_, ?_⟩
        · simp [pushPipeStep, hnone, hzero, hsess]
        · simp [pushPipeStep, hnone, hzero, hsess]
        · intro q hq
          simp only [pushPipeStep, hnone, hzero, hsess,
            List.mem_append, List.mem_singleton] at hq
          rcases hq with hq | hq
          · exact hp q hq
          · subst hq
            rfl
        · simp [pushPipeStep, hnone, hzero, hsess, isTrackEmit]
    · have hstep : pushPipeStep mint st .trackEmit = st := by
        simp [pushPipeStep, hsome]
      rw [hstep]
      exact ⟨Or.inr ⟨hsome, hone⟩, hp, by simp [hone, isTrackEmit]⟩
  · rcases hst with ⟨hnone, hzero⟩ | ⟨hsome, hone⟩
    · have hstep : pushPipeStep mint st (.sessionEmit s) =
          { st with latestSession := some s } := by
        simp [pushPipeStep, hnone]
      rw [hstep]
      exact ⟨Or.inl ⟨hnone, hzero⟩, hp, by simp [hzero, isTrackEmit]⟩
    · have hstep : pushPipeStep mint st (.sessionEmit s) =
          { st with
            latestSession := some s,
            pushes := st.pushes ++ [(mint 0, s.sessionId)] } := by
        simp [pushPipeStep, hsome]
      rw [hstep]
      refine ⟨Or.inr ⟨hsome, hone⟩, ?_, by simp [hone, isTrackEmit]⟩
      intro q hq
      simp only [List.mem_append, List.mem_singleton] at hq
      rcases hq with hq | hq
      · exact hp q hq
      · subst hq
        rfl

theorem pushPipeRun_aux (mint : Nat → String) :
    ∀ (events : List PushSourceEvent) (st : PushPipeState),
    (st.latestStable = none ∧ st.mintCount = 0 ∨
      st.latestStable = some (mint 0) ∧ st.mintCount = 1) →
    (∀ p ∈ st.pushes, p.1 = mint 0) →
    ((events.foldl (pushPipeStep mint) st).latestStable = none ∧
        (events.foldl (pushPipeStep mint) st).mintCount = 0 ∨
      (events.foldl (pushPipeStep mint) st).latestStable = some (mint 0) ∧
        (events.foldl (pushPipeStep mint) st).mintCount = 1) ∧
    (∀ p ∈ (events.foldl (pushPipeStep mint) st).pushes, p.1 = mint 0) ∧
    ((events.foldl (pushPipeStep mint) st).mintCount = 1 ↔
      st.mintCount = 1 ∨ (events.any isTrackEmit) = true) := by
  intro events
  induction events with
  | nil =>
    intro st hst hp
    refine ⟨hst, hp, ?_⟩
    simp
  | cons e rest ih =>
    intro st hst hp
    simp only [List.foldl_cons]
    obtain ⟨hi1, hi2, hi3⟩ := pushPipeStep_inv mint st e hst hp
    obtain ⟨h1, h2, h3⟩ := ih (pushPipeStep mint st e) hi1 hi2
    refine ⟨h1, h2, ?_⟩
    rw [h3, hi3]
    simp only [List.any_cons, Bool.or_eq_true]
    tauto

/-- C4: over any interleaving of source-track and session emissions, the
stable id is minted exactly once (on the first track emission, by
`take(1)` before `map(() => crypto.randomUUID())`), every
`#pushTrackInBulk` call of the subscription carries that single stable id
as its `trackName`, and a `session$` re-emission after a rebuild produces
exactly one re-push with the same `trackName`. -/
theorem c4_stable_id_minted_once (mint : Nat → String)
    (events : List PushSourceEvent) (s : SessionCombo) :
    ((pushPipeRun mint events).mintCount =
      if events.any isTrackEmit then 1 else 0) ∧
    (∀ p ∈ (pushPipeRun mint events).pushes, p.1 = mint 0) ∧
    ((events.any isTrackEmit) = true →
      (pushPipeRun mint (events ++ [PushSourceEvent.sessionEmit s])).pushes =
        (pushPipeRun mint events).pushes ++ [(mint 0, s.sessionId)]) := by
  obtain ⟨h1, h2, h3⟩ := pushPipeRun_aux mint events pushPipeInit
    (Or.inl ⟨rfl, rfl⟩) (by simp [pushPipeInit])
  refine ⟨?_, h2, ?_⟩
  · by_cases ha : events.any isTrackEmit
    · rw [if_pos ha]
      exact h3.mpr (Or.inr ha)
    · rw [if_neg ha]
      rcases h1 with ⟨_, hz⟩ | ⟨_, ho⟩
      · exact hz
      · exfalso
        rcases h3.mp ho with hc | hc
        · simp [pushPipeInit] at hc
        · exact ha hc
  · intro ha
    have hs : (List.foldl (pushPipeStep mint) pushPipeInit
        events).latestStable = some (mint 0) := by
      rcases h1 with ⟨_, hz⟩ | ⟨hsome, _⟩
      · exfalso
        have hone := h3.mpr (Or.inr ha)
        omega
      · exact hsome
    unfold pushPipeRun
    rw [List.foldl_append]
    simp only [List.foldl_cons, List.foldl_nil]
    simp [pushPipeStep, hs]

/-- Concrete event trace with a session rebuild, for the C4 witness. -/
def c4events : List PushSourceEvent :=
  [PushSourceEvent.trackEmit,
   PushSourceEvent.sessionEmit (SessionCombo.mk 1 "S1"),
   PushSourceEvent.sessionEmit (SessionCombo.mk 2 "S2")]

/-- Witness for C4 over a concrete trace with a session rebuild. -/
theorem c4_stable_id_minted_once_witness :
    ((pushPipeRun (fun n => toString n) c4events).mintCount =
      if c4events.any isTrackEmit then 1 else 0) ∧
    (∀ p ∈ (pushPipeRun (fun n => toString n) c4events).pushes,
      p.1 = (fun n => toString n) 0) ∧
    ((c4events.any isTrackEmit) = true →
      (pushPipeRun (fun n => toString n)
          (c4events ++ [PushSourceEvent.sessionEmit (SessionCombo.mk 3 "S3")])).pushes =
        (pushPipeRun (fun n => toString n) c4events).pushes
          ++ [((fun n => toString n) 0, "S3")]) :=
  c4_stable_id_minted_once (fun n => toString n) c4events
    (SessionCombo.mk 3 "S3")

/-- The `RTCIceConnectionState` values read by the
`iceconnectionstatechange` listener of `makePeerConnectionSessionCombo`
(lines 802 to 827 of `part_001`). -/
inductive IceState where
  | iceNew
  | checking
  | connected
  | completed
  | disconnected
  | failed
  | closed
deriving DecidableEq, Repr

/-- State of the ice watcher: the current `iceConnectionState`, the armed
probation timeout (`iceTimeout`, carrying its duration in milliseconds),
and whether `reconnect` was invoked (which errors the session stream so
that `retryWithBackoff` rebuilds the session). -/
structure IceMonitor where
  current : IceState
  pending : Option Nat
  rebuilt : Bool
deriving DecidableEq, Repr

/-- An event seen by the watcher: an `iceconnectionstatechange` to a new
state, or the firing of the armed probation timeout. -/
inductive IceEvent where
  | change (s : IceState)
  | fire
deriving DecidableEq, Repr

/-- Embeds the `iceconnectionstatechange` handler and the timeout callback
of lines 802 to 827: every state change first runs
`clearTimeout(iceTimeout)`; `failed` or `closed` reconnects immediately;
`disconnected` arms a `7 * 1000` millisecond timer; the timer callback
returns silently when the state is `connected` and reconnects
otherwise. -/
def iceStep (m : IceMonitor) : IceEvent → IceMonitor
  | .change s =>
    let m1 := { m with pending := none, current := s }
    if s = .failed ∨ s = .closed then { m1 with rebuilt := true }
    else if s = .disconnected then { m1 with pending := some (7 * 1000) }
    else m1
  | .fire =>
    let m1 := { m with pending := none }
    if m.current = .connected then m1 else { m1 with rebuilt := true }

/-- An event trace is valid when the timer only fires while armed. -/
def iceValid (m : IceMonitor) : List IceEvent → Prop
  | [] => True
  | e :: rest =>
    (e = .fire → m.pending.isSome) ∧ iceValid (iceStep m e) rest

/-- Run of the watcher over a trace. -/
def iceRun (m : IceMonitor) (events : List IceEvent) : IceMonitor :=
  events.foldl iceStep m

theorem iceValid_append_fire (m : IceMonitor) :
    ∀ (events : List IceEvent) (rest : List IceEvent),
    iceValid m (events ++ IceEvent.fire :: rest) →
    (iceRun m events).pending.isSome := by
  intro events
  induction events generalizing m with
  | nil =>
    intro rest h
    exact h.1 rfl
  | cons e tail ih =>
    intro rest h
    exact ih (iceStep m e) rest h.2

/-- C6: the ice watcher arms a 7000 ms probation timer exactly on a change
to `disconnected`; every state change cancels any armed timer (the timer
survives a change only as the fresh one armed by a new `disconnected`); a
valid firing rebuilds the session iff the state at firing time is not
`connected`; and after a change to any state other than `disconnected`, an
immediate firing is impossible, so the cancelled timer can cause no
rebuild. -/
theorem c6_ice_disconnection_timer (m : IceMonitor) (s : IceState)
    (events rest : List IceEvent) :
    ((iceStep m (IceEvent.change IceState.disconnected)).pending =
        some 7000 ∧
      (iceStep m (IceEvent.change IceState.disconnected)).rebuilt =
        m.rebuilt) ∧
    (s ≠ IceState.disconnected →
      (iceStep m (IceEvent.change s)).pending = none) ∧
    (m.current ≠ IceState.connected →
      (iceStep m IceEvent.fire).rebuilt = true) ∧
    (m.current = IceState.connected →
      (iceStep m IceEvent.fire).rebuilt = m.rebuilt) ∧
    ((s = IceState.failed ∨ s = IceState.closed) →
      (iceStep m (IceEvent.change s)).rebuilt = true) ∧
    (s ≠ IceState.disconnected →
      ¬ iceValid m
        (events ++ IceEvent.change s :: IceEvent.fire :: rest)) := by
  refine ⟨⟨?_, ?_⟩, ?_, ?_, ?_, ?_, ?_⟩
  · simp [iceStep]
  · simp [iceStep]
  · intro h
    by_cases hf : s = IceState.failed ∨ s = IceState.closed
    · simp [iceStep, hf]
    · simp [iceStep, hf, h]
  · intro h
    simp [iceStep, h]
  · intro h
    simp [iceStep, h]
  · intro h
    rcases h with rfl | rfl <;> simp [iceStep]
  · intro hs hvalid
    have h1 : iceValid m ((events ++ [IceEvent.change s])
        ++ IceEvent.fire :: rest) := by
      simpa using hvalid
    have h2 := iceValid_append_fire m (events ++ [IceEvent.change s])
      rest h1
    unfold iceRun at h2
    rw [List.foldl_append] at h2
    simp only [List.foldl_cons, List.foldl_nil] at h2
    by_cases hf : s = IceState.failed ∨ s = IceState.closed
    · simp [iceStep, hf] at h2
    · simp [iceStep, hf, hs] at h2

/-- Witness for C6 at a concrete monitor state and trace. -/
theorem c6_ice_disconnection_timer_witness :
    ((iceStep (IceMonitor.mk IceState.connected none false)
        (IceEvent.change IceState.disconnected)).pending = some 7000 ∧
      (iceStep (IceMonitor.mk IceState.connected none false)
        (IceEvent.change IceState.disconnected)).rebuilt =
        (IceMonitor.mk IceState.connected none false).rebuilt) ∧
    (IceState.checking ≠ IceState.disconnected →
      (iceStep (IceMonitor.mk IceState.connected none false)
        (IceEvent.change IceState.checking)).pending = none) ∧
    ((IceMonitor.mk IceState.connected none false).current ≠
        IceState.connected →
      (iceStep (IceMonitor.mk IceState.connected none false)
        IceEvent.fire).rebuilt = true) ∧
    ((IceMonitor.mk IceState.connected none false).current =
        IceState.connected →
      (iceStep (IceMonitor.mk IceState.connected none false)
        IceEvent.fire).rebuilt =
        (IceMonitor.mk IceState.connected none false).rebuilt) ∧
    ((IceState.checking = IceState.failed ∨
        IceState.checking = IceState.closed) →
      (iceStep (IceMonitor.mk IceState.connected none false)
        (IceEvent.change IceState.checking)).rebuilt = true) ∧
    (IceState.checking ≠ IceState.disconnected →
      ¬ iceValid (IceMonitor.mk IceState.connected none false)
        ([IceEvent.change IceState.disconnected]
          ++ IceEvent.change IceState.checking :: IceEvent.fire :: [])) :=
  c6_ice_disconnection_timer (IceMonitor.mk IceState.connected none false)
    IceState.checking [IceEvent.change IceState.disconnected] []

/-- A transceiver of the pull path, as inspected by the `tap` stage of
`PartyTracks.pull` (lines 569 to 572 of `part_001`): its `mid` and the
identity of its `receiver.track`. -/
structure PullTransceiver where
  midStr : Option String
  receiverTrackId : Nat
deriving DecidableEq, Repr

/-- Embeds lines 540 to 544 of `part_001`: the descriptor handed to
`#pullTrackInBulk` is the track data, extended with
`simulcast: \x7b preferredRid \x7d` when a preferred rid was sampled at
subscription time (`withLatestFrom(preferredRid$)`). -/
def pullDescriptorSent (descriptor : TrackMetadata) (rid : Option String) :
    TrackMetadata :=
  match rid with
  | some r => { descriptor with simulcast := some (SimulcastPref.mk r) }
  | none => descriptor

/-- Embeds lines 573 to 581 of `part_001`: the `tracks` array of a
`PUT /sessions/(id)/tracks/update` request,
`[\x7b ...trackMetadata, mid, simulcast: \x7b preferredRid \x7d \x7d]`. -/
def mkRidUpdateBody (descriptor : TrackMetadata) (mid : Option String)
    (rid : String) : List TrackMetadata :=
  [{ descriptor with mid := mid, simulcast := some (SimulcastPref.mk rid) }]

/-- State of a connected pull subscription while `preferredRid$` emits:
how many `preferredRid$` emissions have been seen (for `skip(1)`), the
`tracks/new` pull requests issued so far, and the `tracks/update` PUT
bodies issued so far. -/
structure RidPipeState where
  ridEmitCount : Nat
  pulls : List TrackMetadata
  updates : List (List TrackMetadata)
deriving DecidableEq, Repr

/-- Embeds one `preferredRid$` emission against a connected pull (lines
549 to 587 of `part_001`).  `subsequentPreferredRid$ =
concat(of(undefined), preferredRid$.pipe(skip(1)))`, so the first
emission is swallowed by `skip(1)` and reaches nothing (the pipeline
already consumed the initial `undefined`, whose `tap` run returns early).
A later emission re-fires `combineLatest` and runs the `tap`: an
`undefined` value returns early; otherwise the transceiver owning the
pulled track is looked up and, when found, one `tracks/update` body is
issued with its mid.  The pull itself samples `preferredRid$` through
`withLatestFrom`, so no emission here ever appends a `tracks/new`
pull. -/
def ridPipeStep (transceivers : List PullTransceiver) (trackId : Nat)
    (descriptor : TrackMetadata) (st : RidPipeState) (r : Option String) :
    RidPipeState :=
  let st1 := { st with ridEmitCount := st.ridEmitCount + 1 }
  if st.ridEmitCount == 0 then st1
  else
    match r with
    | none => st1
    | some rid =>
      match transceivers.find? (fun t => t.receiverTrackId == trackId) with
      | none => st1
      | some tr =>
        { st1 with
          updates := st1.updates ++ [mkRidUpdateBody descriptor tr.midStr rid] }

/-- A connected pull subscription processing a whole `preferredRid$`
trace; its single `tracks/new` request was issued at subscription time
with the rid sampled then. -/
def ridPipeRun (transceivers : List PullTransceiver) (trackId : Nat)
    (descriptor : TrackMetadata) (rid0 : Option String)
    (rids : List (Option String)) : RidPipeState :=
  rids.foldl (ridPipeStep transceivers trackId descriptor)
    (RidPipeState.mk 0 [pullDescriptorSent descriptor rid0] [])

theorem ridPipeRun_aux (transceivers : List PullTransceiver) (trackId : Nat)
    (descriptor : TrackMetadata) (tr : PullTransceiver)
    (hfind : transceivers.find? (fun t => t.receiverTrackId == trackId) =
      some tr) :
    ∀ (rids : List (Option String)) (st : RidPipeState),
    st.ridEmitCount ≠ 0 →
    (rids.foldl (ridPipeStep transceivers trackId descriptor) st).updates =
      st.updates ++ rids.filterMap
        (fun r => r.map (mkRidUpdateBody descriptor tr.midStr)) ∧
    (rids.foldl (ridPipeStep transceivers trackId descriptor) st).pulls =
      st.pulls := by
  intro rids
  induction rids with
  | nil =>
    intro st hst
    simp
  | cons r rest ih =>
    intro st hst
    simp only [List.foldl_cons]
    have hne : (st.ridEmitCount == 0) = false := by
      simp [hst]
    rcases r with _ | rid
    · have hstep : ridPipeStep transceivers trackId descriptor st none =
          { st with ridEmitCount := st.ridEmitCount + 1 } := by
        simp [ridPipeStep, hne]
      rw [hstep]
      obtain ⟨h1, h2⟩ := ih { st with ridEmitCount := st.ridEmitCount + 1 }
        (by simp)
      exact ⟨by simpa using h1, by simpa using h2⟩
    · have hstep : ridPipeStep transceivers trackId descriptor st
          (some rid) =
          { st with
            ridEmitCount := st.ridEmitCount + 1,
            updates := st.updates
              ++ [mkRidUpdateBody descriptor tr.midStr rid] } := by
        simp [ridPipeStep, hne, hfind]
      rw [hstep]
      obtain ⟨h1, h2⟩ := ih
        { st with
          ridEmitCount := st.ridEmitCount + 1,
          updates := st.updates
            ++ [mkRidUpdateBody descriptor tr.midStr rid] }
        (by simp)
      refine ⟨?_, by simpa using h2⟩
      rw [h1]
      simp

/-- C8: for a connected pull with simulcast enabled whose transceiver
resolves, the initial `preferredRid` value triggers no `tracks/update`
PUT; each non-initial defined value emitted by `preferredRid$` yields
exactly one PUT whose body is the descriptor extended with the resolved
transceiver mid and `simulcast.preferredRid` equal to the emitted value
(`undefined` emissions yield none); and no emission adds a `tracks/new`
request: the subscription keeps its single pull request, built with the
rid sampled at subscription time. -/
theorem c8_preferred_rid_updates (transceivers : List PullTransceiver)
    (trackId : Nat) (descriptor : TrackMetadata) (tr : PullTransceiver)
    (rid0 : Option String) (rids : List (Option String))
    (hfind : transceivers.find? (fun t => t.receiverTrackId == trackId) =
      some tr) :
    (ridPipeRun transceivers trackId descriptor rid0 rids).updates =
      (rids.drop 1).filterMap
        (fun r => r.map (mkRidUpdateBody descriptor tr.midStr)) ∧
    (ridPipeRun transceivers trackId descriptor rid0 rids).pulls =
      [pullDescriptorSent descriptor rid0] ∧
    (∀ r : Option String,
      (ridPipeRun transceivers trackId descriptor rid0 [r]).updates = []) := by
  refine ⟨?_, ?_, ?_⟩
  · rcases rids with _ | ⟨r0, rest⟩
    · simp [ridPipeRun]
    · unfold ridPipeRun
      simp only [List.foldl_cons]
      have hstep : ridPipeStep transceivers trackId descriptor
          (RidPipeState.mk 0 [pullDescriptorSent descriptor rid0] []) r0 =
          RidPipeState.mk 1 [pullDescriptorSent descriptor rid0] [] := by
        simp [ridPipeStep]
      rw [hstep]
      obtain ⟨h1, h2⟩ := ridPipeRun_aux transceivers trackId descriptor tr
        hfind rest (RidPipeState.mk 1 [pullDescriptorSent descriptor rid0] [])
        (by simp)
      simpa using h1
  · rcases rids with _ | ⟨r0, rest⟩
    · simp [ridPipeRun]
    · unfold ridPipeRun
      simp only [List.foldl_cons]
      have hstep : ridPipeStep transceivers trackId descriptor
          (RidPipeState.mk 0 [pullDescriptorSent descriptor rid0] []) r0 =
          RidPipeState.mk 1 [pullDescriptorSent descriptor rid0] [] := by
        simp [ridPipeStep]
      rw [hstep]
      obtain ⟨h1, h2⟩ := ridPipeRun_aux transceivers trackId descriptor tr
        hfind rest (RidPipeState.mk 1 [pullDescriptorSent descriptor rid0] [])
        (by simp)
      simpa using h2
  · intro r
    unfold ridPipeRun
    simp only [List.foldl_cons, List.foldl_nil]
    have hstep : ridPipeStep transceivers trackId descriptor
        (RidPipeState.mk 0 [pullDescriptorSent descriptor rid0] []) r =
        RidPipeState.mk 1 [pullDescriptorSent descriptor rid0] [] := by
      simp [ridPipeStep]
    rw [hstep]

/-- Concrete transceiver list for the C8 witness. -/
def c8transceivers : List PullTransceiver :=
  [PullTransceiver.mk (some "7") 3]

/-- Concrete pulled descriptor for the C8 witness. -/
def c8descriptor : TrackMetadata :=
  { trackName := some "tA", sessionId := some "S1",
    location := some .locRemote }

/-- Witness for C8 at a concrete rid trace: the rid values are sampled as
`["h", "l", undefined, "f"]`, so the PUT bodies carry `"l"` and `"f"`. -/
theorem c8_preferred_rid_updates_witness :
    (ridPipeRun c8transceivers 3 c8descriptor (some "h")
        [some "h", some "l", none, some "f"]).updates =
      ([some "h", some "l", none, some "f"].drop 1).filterMap
        (fun r => r.map (mkRidUpdateBody c8descriptor
          (PullTransceiver.mk (some "7") 3).midStr)) ∧
    (ridPipeRun c8transceivers 3 c8descriptor (some "h")
        [some "h", some "l", none, some "f"]).pulls =
      [pullDescriptorSent c8descriptor (some "h")] ∧
    (∀ r : Option String,
      (ridPipeRun c8transceivers 3 c8descriptor (some "h") [r]).updates = []) :=
  c8_preferred_rid_updates c8transceivers 3 c8descriptor
    (PullTransceiver.mk (some "7") 3) (some "h")
    [some "h", some "l", none, some "f"] (by decide)

mutual
/-- A JavaScript runtime value of the shapes `JSON.stringify` meets on a
`TrackMetadata` descriptor: strings, numbers, booleans, `null`, and
objects whose fields keep their insertion order. -/
inductive JsonValue where
  | str (s : String)
  | num (n : Int)
  | boolean (b : Bool)
  | null
  | obj (fields : JsonFields)

/-- The ordered field list of a JavaScript object. -/
inductive JsonFields where
  | nil
  | cons (key : String) (value : JsonValue) (rest : JsonFields)
end

mutual
/-- Structural (order-sensitive) equality of JSON values. -/
def jsonBeq : JsonValue → JsonValue → Bool
  | .str a, .str b => a == b
  | .num a, .num b => a == b
  | .boolean a, .boolean b => a == b
  | .null, .null => true
  | .obj fa, .obj fb => jsonFieldsBeq fa fb
  | _, _ => false
termination_by structural a _ => a

/-- Structural equality of ordered field lists. -/
def jsonFieldsBeq : JsonFields → JsonFields → Bool
  | .nil, .nil => true
  | .cons k v r, .cons k2 v2 r2 =>
    k == k2 && jsonBeq v v2 && jsonFieldsBeq r r2
  | _, _ => false
termination_by structural a _ => a
end

/-- Lexicographic comparison of character lists by code point. -/
def charsLe : List Char → List Char → Bool
  | [], _ => true
  | _ :: _, [] => false
  | c :: cs, d :: ds =>
    if c.toNat < d.toNat then true
    else if d.toNat < c.toNat then false
    else charsLe cs ds

/-- Lexicographic comparison of strings, used to pick a canonical field
order for the deep-equality normal form. -/
def strLe (a b : String) : Bool := charsLe a.toList b.toList

/-- Insertion into a key-sorted field list. -/
def insertField (k : String) (v : JsonValue) : JsonFields → JsonFields
  | .nil => .cons k v .nil
  | .cons k2 v2 r =>
    if strLe k k2 then .cons k v (.cons k2 v2 r)
    else .cons k2 v2 (insertField k v r)

/-- Sort a field list by key. -/
def sortFields : JsonFields → JsonFields
  | .nil => .nil
  | .cons k v r => insertField k v (sortFields r)

mutual
/-- Normal form of a JSON value in which every object has its fields
sorted by key: two values are deeply value-equal (equal as key-value
mappings, ignoring field order) iff their normal forms agree. -/
def normalizeJson : JsonValue → JsonValue
  | .obj fs => .obj (sortFields (normalizeFieldValues fs))
  | .str s => .str s
  | .num n => .num n
  | .boolean b => .boolean b
  | .null => .null
termination_by structural a => a

/-- Normalize every value of a field list. -/
def normalizeFieldValues : JsonFields → JsonFields
  | .nil => .nil
  | .cons k v r => .cons k (normalizeJson v) (normalizeFieldValues r)
termination_by structural a => a
end

/-- Written to the words of the spec: deep equality by value of two
descriptors, insensitive to the order in which the object keys were
inserted. -/
def deepEqb (a b : JsonValue) : Bool :=
  jsonBeq (normalizeJson a) (normalizeJson b)

/-- Hexadecimal digit as emitted by `JSON.stringify` unicode escapes. -/
def hexDigit (n : Nat) : Char :=
  if n < 10 then Char.ofNat (48 + n) else Char.ofNat (87 + n)

/-- Escaping of a character inside a `JSON.stringify` string literal. -/
def escapeChar (c : Char) : String :=
  if c = '\"' then "\\\""
  else if c = '\\' then "\\\\"
  else if c = Char.ofNat 8 then "\\b"
  else if c = Char.ofNat 9 then "\\t"
  else if c = Char.ofNat 10 then "\\n"
  else if c = Char.ofNat 12 then "\\f"
  else if c = Char.ofNat 13 then "\\r"
  else if c.toNat < 32 then
    "\\u00" ++ String.mk [hexDigit (c.toNat / 16), hexDigit (c.toNat % 16)]
  else String.mk [c]

/-- Escaping of a whole string body. -/
def escapeString (s : String) : String :=
  s.toList.foldl (fun acc c => acc ++ escapeChar c) ""

/-- A `JSON.stringify` string literal: quote, escaped body, quote. -/
def quoteJson (s : String) : String := "\"" ++ escapeString s ++ "\""

mutual
/-- The platform `JSON.stringify` on the modelled value shapes: fields are
serialized in insertion order. -/
def stringifyJson : JsonValue → String
  | .str s => quoteJson s
  | .num n => toString n
  | .boolean b => if b then "true" else "false"
  | .null => "null"
  | .obj fs => "\x7b" ++ stringifyFields fs ++ "\x7d"
termination_by structural a => a

/-- Serialization of a field list, comma separated. -/
def stringifyFields : JsonFields → String
  | .nil => ""
  | .cons k v rest =>
    quoteJson k ++ ":" ++ stringifyJson v ++
      (match rest with
       | .nil => ""
       | .cons _ _ _ => ",") ++ stringifyFields rest
termination_by structural a => a
end

/-- Embeds the comparator of line 532 of `part_001`:
`(x, y) => JSON.stringify(x) === JSON.stringify(y)`. -/
def jsonStrEq (a b : JsonValue) : Bool :=
  stringifyJson a == stringifyJson b

/-- Tail worker of `distinctUntilChanged`: `prev` is the last emission
that passed through. -/
def duAux {α : Type} (cmp : α → α → Bool) (prev : α) : List α → List α
  | [] => []
  | y :: ys => if cmp prev y then duAux cmp prev ys else y :: duAux cmp y ys

/-- The rxjs `distinctUntilChanged(comparator)` operator over a finite
emission list: an emission is dropped iff the comparator relates it to the
last emission that passed through. -/
def distinctUntilChangedBy {α : Type} (cmp : α → α → Bool) :
    List α → List α
  | [] => []
  | x :: xs => x :: duAux cmp x xs

/-- Embeds lines 527 to 547 of `part_001`: the `trackData$` emissions that
survive `distinctUntilChanged((x, y) => JSON.stringify(x) ===
JSON.stringify(y))`; each surviving emission re-fires `combineLatest` and
the `switchMap` runs `#pullTrackInBulk` once for it, issuing one
`tracks/new` pull request. -/
def pullTriggeredDescriptors (emissions : List JsonValue) :
    List JsonValue :=
  distinctUntilChangedBy jsonStrEq emissions

/-- Descriptor used to refute C7. -/
def c7x : JsonValue :=
  .obj (.cons "trackName" (.str "tA") (.cons "sessionId" (.str "S1") .nil))

/-- The same descriptor as `c7x` as a key-value mapping, with the two
keys inserted in the opposite order. -/
def c7y : JsonValue :=
  .obj (.cons "sessionId" (.str "S1") (.cons "trackName" (.str "tA") .nil))

/-- C7 counterexample: `c7x` and `c7y` are identical descriptors under
deep value equality, yet they serialize differently, so the
`JSON.stringify` comparator does not relate them and the second emission
triggers a second pull (two inner executions, hence two `tracks/new`
requests, where the claim requires one). -/
theorem c7_deep_equality_counterexample :
    deepEqb c7x c7y = true ∧
    jsonStrEq c7x c7y = false ∧
    (pullTriggeredDescriptors [c7x, c7y]).length = 2 := by
  refine ⟨by decide, by decide, by decide⟩

/-- C7 (amended): the dedupe is by `JSON.stringify` equality, not by deep
value equality: a consecutive emission that serializes identically to the
previous surviving one triggers no new pull, while one that serializes
differently (any field-value change, but also a mere key-order difference
between deeply-equal objects) triggers a re-pull; emissions that are the
same JavaScript value always serialize identically and so never
re-pull. -/
theorem c7_pull_dedupe_by_stringify (x y : JsonValue)
    (xs : List JsonValue) :
    (x = y → jsonStrEq x y = true) ∧
    (jsonStrEq x y = true →
      pullTriggeredDescriptors (x :: y :: xs) =
        pullTriggeredDescriptors (x :: xs)) ∧
    (jsonStrEq x y = false →
      pullTriggeredDescriptors (x :: y :: xs) =
        x :: pullTriggeredDescriptors (y :: xs)) := by
  refine ⟨?_, ?_, ?_⟩
  · rintro rfl
    simp [jsonStrEq]
  · intro h
    simp [pullTriggeredDescriptors, distinctUntilChangedBy, duAux, h]
  · intro h
    simp [pullTriggeredDescriptors, distinctUntilChangedBy, duAux, h]

/-- Witness for the amended C7 theorem at the concrete descriptors. -/
theorem c7_pull_dedupe_by_stringify_witness :
    (c7x = c7y → jsonStrEq c7x c7y = true) ∧
    (jsonStrEq c7x c7y = true →
      pullTriggeredDescriptors [c7x, c7y] =
        pullTriggeredDescriptors [c7x]) ∧
    (jsonStrEq c7x c7y = false →
      pullTriggeredDescriptors [c7x, c7y] =
        c7x :: pullTriggeredDescriptors [c7y]) :=
  c7_pull_dedupe_by_stringify c7x c7y []

/-- The socket options as seen by `useStableSocket` (`use-socket.ts`):
`key` is the string computed by the caller-supplied
`createSocketMemoKey`, and `startClosed` is the caller option the effect
consults with `socketOptions.startClosed !== true` (false covers both an
absent and an explicit false option). -/
structure SocketOpts where
  key : String
  startClosed : Bool
deriving DecidableEq, Repr

/-- The hook state across renders: the current socket from `useState`
(sockets are numbered in construction order), the memoized options value
and its reference identity (`useMemo` returns the previous value and
reference while the memo key is unchanged), the construction counter, and
the refs `socketInitializedRef`, `prevEnabledRef`,
`prevSocketOptionsRef` and `optionsChangedWhileDisabledRef`. -/
structure HookState where
  socket : Nat
  socketOpts : SocketOpts
  optionsRef : Nat
  nextSocketId : Nat
  nextRefId : Nat
  socketInitialized : Option Nat
  prevEnabled : Bool
  prevOptionsRef : Nat
  drifted : Bool
deriving DecidableEq, Repr

/-- An externally visible call made by the hook: constructing a socket
through `createSocket` with the given options, calling `reconnect()`, or
calling `close()`. -/
inductive SocketAction where
  | construct (id : Nat) (opts : SocketOpts)
  | reconnect (id : Nat)
  | closeSock (id : Nat)
deriving DecidableEq, Repr

/-- Embeds the mount of `useStableSocket` (lines 44 to 77 of
`use-socket.ts`): the `useState` initializer constructs the socket with
`\x7b ...socketOptions, startClosed: true \x7d`, and the refs start as
`null`, the first render enabled flag, the memoized options reference,
and false. -/
def mountHook (opts0 : SocketOpts) (enabled0 : Bool) :
    HookState × List SocketAction :=
  (HookState.mk 0 opts0 0 1 1 none enabled0 0 false,
   [SocketAction.construct 0 { opts0 with startClosed := true }])

/-- Embeds the `useMemo` of lines 47 to 50: when the memo key of the
incoming options equals the key of the memoized options, the memoized
value and its reference are reused; otherwise the incoming options become
the memoized value under a fresh reference. -/
def renderHook (st : HookState) (options : SocketOpts) : HookState :=
  if options.key == st.socketOpts.key then st
  else
    { st with
      socketOpts := options,
      optionsRef := st.nextRefId,
      nextRefId := st.nextRefId + 1 }

/-- Embeds the effect body of lines 80 to 171 of `use-socket.ts`, run
against the memoized options of the current render.  Returns the next
state and the calls the body makes, in order. -/
def effectHook (st : HookState) (enabled : Bool) :
    HookState × List SocketAction :=
  let optionsChanged := st.prevOptionsRef != st.optionsRef
  let st1 := { st with prevOptionsRef := st.optionsRef }
  if !enabled then
    ({ st1 with
        prevEnabled := false,
        drifted := st1.drifted || optionsChanged },
     [SocketAction.closeSock st1.socket])
  else if !st1.prevEnabled then
    let needsNew := optionsChanged || st1.drifted
    let st2 := { st1 with prevEnabled := true, drifted := false }
    if !needsNew then
      (st2, [SocketAction.reconnect st2.socket])
    else
      ({ st2 with
          socket := st2.nextSocketId,
          nextSocketId := st2.nextSocketId + 1 },
       [SocketAction.construct st2.nextSocketId
          { st2.socketOpts with startClosed := true }])
  else
    let st2 := { st1 with prevEnabled := true }
    if st2.socketInitialized = some st2.socket then
      if optionsChanged then
        ({ st2 with
            socket := st2.nextSocketId,
            nextSocketId := st2.nextSocketId + 1 },
         [SocketAction.construct st2.nextSocketId
            { st2.socketOpts with startClosed := true }])
      else
        (st2,
         if st2.socketOpts.startClosed then []
         else [SocketAction.reconnect st2.socket])
    else
      match st2.socketInitialized with
      | none =>
        ({ st2 with socketInitialized := some st2.socket },
         if st2.socketOpts.startClosed then []
         else [SocketAction.reconnect st2.socket])
      | some _ =>
        ({ st2 with socketInitialized := some st2.socket },
         [SocketAction.reconnect st2.socket])

/-- One render followed by its effect run. -/
def hookStep (st : HookState) (input : SocketOpts × Bool) :
    HookState × List SocketAction :=
  effectHook (renderHook st input.1) input.2

/-- Fold step of a hook lifetime: run one cycle and append its calls. -/
def hookAccStep (acc : HookState × List SocketAction)
    (input : SocketOpts × Bool) : HookState × List SocketAction :=
  ((hookStep acc.1 input).1, acc.2 ++ (hookStep acc.1 input).2)

/-- A sequence of render-and-effect cycles from a given state,
accumulating the calls made. -/
def hookRunFrom (st : HookState) (inputs : List (SocketOpts × Bool)) :
    HookState × List SocketAction :=
  inputs.foldl hookAccStep (st, [])

/-- A full hook lifetime: mount, then the given render-and-effect
cycles. -/
def hookRun (opts0 : SocketOpts) (enabled0 : Bool)
    (inputs : List (SocketOpts × Bool)) : HookState × List SocketAction :=
  ((hookRunFrom (mountHook opts0 enabled0).1 inputs).1,
   (mountHook opts0 enabled0).2
     ++ (hookRunFrom (mountHook opts0 enabled0).1 inputs).2)

theorem hookRunFrom_acc :
    ∀ (inputs : List (SocketOpts × Bool)) (s : HookState)
      (acts : List SocketAction),
    inputs.foldl hookAccStep (s, acts) =
      ((hookRunFrom s inputs).1, acts ++ (hookRunFrom s inputs).2) := by
  intro inputs
  induction inputs with
  | nil =>
    intro s acts
    simp [hookRunFrom]
  | cons j rest ih =>
    intro s acts
    have hr : hookRunFrom s (j :: rest) =
        ((hookRunFrom (hookStep s j).1 rest).1,
         (hookStep s j).2 ++ (hookRunFrom (hookStep s j).1 rest).2) := by
      show List.foldl hookAccStep (s, []) (j :: rest) = _
      rw [List.foldl_cons]
      rw [show hookAccStep (s, ([] : List SocketAction)) j =
        ((hookStep s j).1, (hookStep s j).2) from by simp [hookAccStep]]
      rw [ih]
    rw [List.foldl_cons]
    rw [show hookAccStep (s, acts) j =
      ((hookStep s j).1, acts ++ (hookStep s j).2) from rfl]
    rw [ih, hr]
    simp

theorem hookRunFrom_cons (st : HookState) (i : SocketOpts × Bool)
    (rest : List (SocketOpts × Bool)) :
    hookRunFrom st (i :: rest) =
      ((hookRunFrom (hookStep st i).1 rest).1,
       (hookStep st i).2 ++ (hookRunFrom (hookStep st i).1 rest).2) := by
  show List.foldl hookAccStep (st, []) (i :: rest) = _
  rw [List.foldl_cons]
  rw [show hookAccStep (st, ([] : List SocketAction)) i =
    ((hookStep st i).1, (hookStep st i).2) from by simp [hookAccStep]]
  exact hookRunFrom_acc rest (hookStep st i).1 (hookStep st i).2

theorem c9_step (opts0 : SocketOpts) (st : HookState) (i : SocketOpts × Bool)
    (hkey : i.1.key = opts0.key) (hen : i.2 = true)
    (h1 : st.socket = 0) (h2 : st.nextSocketId = 1) (h3 : st.optionsRef = 0)
    (h4 : st.prevOptionsRef = 0) (h5 : st.socketOpts = opts0)
    (h6 : st.prevEnabled = true) :
    (hookStep st i).1.socket = 0 ∧ (hookStep st i).1.nextSocketId = 1 ∧
    (hookStep st i).1.optionsRef = 0 ∧
    (hookStep st i).1.prevOptionsRef = 0 ∧
    (hookStep st i).1.socketOpts = opts0 ∧
    (hookStep st i).1.prevEnabled = true ∧
    (∀ a ∈ (hookStep st i).2, a = SocketAction.reconnect 0) := by
  obtain ⟨sock, sopts, oref, nsid, nrid, sinit, pen, pref, dr⟩ := st
  obtain ⟨iopts, ien⟩ := i
  simp only [HookState.socket] at h1
  simp only [HookState.nextSocketId] at h2
  simp only [HookState.optionsRef] at h3
  simp only [HookState.prevOptionsRef] at h4
  simp only [HookState.socketOpts] at h5
  simp only [HookState.prevEnabled] at h6
  simp only at hkey hen
  subst h1 h2 h3 h4 h5 h6 hen
  have hrender :
      renderHook (HookState.mk 0 sopts 0 1 nrid sinit true 0 dr) iopts =
        HookState.mk 0 sopts 0 1 nrid sinit true 0 dr := by
    simp [renderHook, hkey]
  unfold hookStep
  rw [hrender]
  rcases sinit with _ | k
  · by_cases hsc : sopts.startClosed <;> simp [effectHook, hsc]
  · by_cases hk : k = 0
    · subst hk
      by_cases hsc : sopts.startClosed <;> simp [effectHook, hsc]
    · by_cases hsc : sopts.startClosed <;> simp [effectHook, hsc, hk]

theorem c9_aux (opts0 : SocketOpts) :
    ∀ (inputs : List (SocketOpts × Bool)) (st : HookState),
    (∀ i ∈ inputs, (i.1).key = opts0.key ∧ i.2 = true) →
    st.socket = 0 → st.nextSocketId = 1 → st.optionsRef = 0 →
    st.prevOptionsRef = 0 → st.socketOpts = opts0 → st.prevEnabled = true →
    ((hookRunFrom st inputs).1.socket = 0 ∧
     (hookRunFrom st inputs).1.nextSocketId = 1 ∧
     (∀ a ∈ (hookRunFrom st inputs).2, a = SocketAction.reconnect 0)) := by
  intro inputs
  induction inputs with
  | nil =>
    intro st h hs1 hs2 hs3 hs4 hs5 hs6
    exact ⟨hs1, hs2, by simp [hookRunFrom]⟩
  | cons i rest ih =>
    intro st h hs1 hs2 hs3 hs4 hs5 hs6
    obtain ⟨hkey, hen⟩ := h i (by simp)
    obtain ⟨g1, g2, g3, g4, g5, g6, gact⟩ :=
      c9_step opts0 st i hkey hen hs1 hs2 hs3 hs4 hs5 hs6
    rw [hookRunFrom_cons]
    obtain ⟨r1, r2, r3⟩ := ih (hookStep st i).1
      (fun j hj => h j (by simp [hj])) g1 g2 g3 g4 g5 g6
    refine ⟨r1, r2, ?_⟩
    intro a ha
    simp only [List.mem_append] at ha
    rcases ha with ha | ha
    · exact gact a ha
    · exact r3 a ha

/-- C9: across any sequence of render-and-effect cycles whose memo key
stays that of the mount options and whose `enabled` flag stays true, the
hook keeps returning the socket constructed at mount (identity `0`), the
construction counter never moves (no new socket is constructed), and the
only calls the runs make beyond the mount construction are `reconnect()`
on that same socket. -/
theorem c9_stable_socket_identity (opts0 : SocketOpts)
    (inputs : List (SocketOpts × Bool))
    (h : ∀ i ∈ inputs, (i.1).key = opts0.key ∧ i.2 = true) :
    (hookRun opts0 true inputs).1.socket = 0 ∧
    (hookRun opts0 true inputs).1.nextSocketId = 1 ∧
    (∀ a ∈ (hookRun opts0 true inputs).2,
      a = SocketAction.construct 0 { opts0 with startClosed := true } ∨
        a = SocketAction.reconnect 0) := by
  obtain ⟨r1, r2, r3⟩ := c9_aux opts0 inputs (mountHook opts0 true).1
    h rfl rfl rfl rfl rfl rfl
  refine ⟨r1, r2, ?_⟩
  intro a ha
  have ha2 : a ∈ (mountHook opts0 true).2 ∨
      a ∈ (hookRunFrom (mountHook opts0 true).1 inputs).2 := by
    simpa [hookRun] using ha
  rcases ha2 with ha2 | ha2
  · left
    simpa [mountHook] using ha2
  · right
    exact r3 a ha2

/-- Concrete options used by the C9 witness. -/
def c9opts : SocketOpts := SocketOpts.mk "room-1" false

/-- Witness for C9 over two hot-reload style effect replays. -/
theorem c9_stable_socket_identity_witness :
    (hookRun c9opts true [(c9opts, true), (c9opts, true)]).1.socket = 0 ∧
    (hookRun c9opts true [(c9opts, true), (c9opts, true)]).1.nextSocketId = 1 ∧
    (∀ a ∈ (hookRun c9opts true [(c9opts, true), (c9opts, true)]).2,
      a = SocketAction.construct 0 { c9opts with startClosed := true } ∨
        a = SocketAction.reconnect 0) :=
  c9_stable_socket_identity c9opts [(c9opts, true), (c9opts, true)]
    (by decide)

/-- Modelled from the spec: constructing a `ReconnectingSocket` (the
partysocket `ws.ts` implementation is not among the provided source
files) with `startClosed: true` does not initiate a connection; a
connection starts only through a later `connect`/`reconnect` call
(spec 4.8 and 4.9). -/
def constructionOpensConnection (o : SocketOpts) : Bool :=
  !o.startClosed

theorem effectHook_constructions (st : HookState) (enabled : Bool)
    (id : Nat) (o : SocketOpts)
    (hmem : SocketAction.construct id o ∈ (effectHook st enabled).2) :
    o.startClosed = true := by
  unfold effectHook at hmem
  cases enabled with
  | false =>
    simp at hmem
  | true =>
    by_cases hpe : st.prevEnabled
    · by_cases hin : st.socketInitialized = some st.socket
      · by_cases hoc : st.prevOptionsRef != st.optionsRef
        · simp [hpe, hin, hoc] at hmem
          rw [hmem.2]
        · by_cases hsc : st.socketOpts.startClosed <;>
            simp [hpe, hin, hoc, hsc] at hmem
      · rcases hinit : st.socketInitialized with _ | k
        · by_cases hsc : st.socketOpts.startClosed <;>
            simp [hpe, hin, hinit, hsc] at hmem
        · have hk : ¬ (k = st.socket) := by
            rw [hinit] at hin
            simpa using hin
          simp [hpe, hin, hinit, hk] at hmem
    · by_cases hneed : (st.prevOptionsRef != st.optionsRef) || st.drifted
      · simp [hpe, hneed] at hmem
        rw [hmem.2]
      · simp [hpe, hneed] at hmem

theorem c10_runFrom_constructions :
    ∀ (inputs : List (SocketOpts × Bool)) (st : HookState)
      (id : Nat) (o : SocketOpts),
    SocketAction.construct id o ∈ (hookRunFrom st inputs).2 →
    o.startClosed = true := by
  intro inputs
  induction inputs with
  | nil =>
    intro st id o hmem
    simp [hookRunFrom] at hmem
  | cons i rest ih =>
    intro st id o hmem
    rw [hookRunFrom_cons] at hmem
    have hmem2 : SocketAction.construct id o ∈ (hookStep st i).2 ∨
        SocketAction.construct id o ∈
          (hookRunFrom (hookStep st i).1 rest).2 := by
      simpa using hmem
    rcases hmem2 with hmem2 | hmem2
    · exact effectHook_constructions (renderHook st i.1) i.2 id o hmem2
    · exact ih (hookStep st i).1 id o hmem2

/-- C10: every socket `useStableSocket` ever constructs, the one from the
`useState` initializer at mount and every replacement built on an options
change or on re-enable after options drifted, is created with
`startClosed` forced to true, so no construction opens a network
connection; connections are initiated only by the `reconnect()` calls the
effect makes. -/
theorem c10_constructions_start_closed (opts0 : SocketOpts)
    (enabled0 : Bool) (inputs : List (SocketOpts × Bool)) (id : Nat)
    (o : SocketOpts)
    (hmem : SocketAction.construct id o ∈
      (hookRun opts0 enabled0 inputs).2) :
    o.startClosed = true ∧ constructionOpensConnection o = false := by
  have hmem2 : SocketAction.construct id o ∈ (mountHook opts0 enabled0).2 ∨
      SocketAction.construct id o ∈
        (hookRunFrom (mountHook opts0 enabled0).1 inputs).2 := by
    simpa [hookRun] using hmem
  have hsc : o.startClosed = true := by
    rcases hmem2 with hmem2 | hmem2
    · have : SocketAction.construct id o =
          SocketAction.construct 0 { opts0 with startClosed := true } := by
        simpa [mountHook] using hmem2
      have ho : o = { opts0 with startClosed := true } := by
        injection this
      rw [ho]
    · exact c10_runFrom_constructions inputs (mountHook opts0 enabled0).1
        id o hmem2
  exact ⟨hsc, by simp [constructionOpensConnection, hsc]⟩

/-- Second concrete options value (different memo key) for the C10
witness. -/
def c10optsB : SocketOpts := SocketOpts.mk "room-2" false

/-- Witness for C10: a trace with an options change constructs a
replacement socket, and that construction carries `startClosed = true`. -/
theorem c10_constructions_start_closed_witness :
    ({ c10optsB with startClosed := true } : SocketOpts).startClosed = true ∧
    constructionOpensConnection
      ({ c10optsB with startClosed := true } : SocketOpts) = false :=
  c10_constructions_start_closed c9opts true
    [(c9opts, true), (c10optsB, true), (c10optsB, true)] 1
    { c10optsB with startClosed := true } (by decide)

end PartyTracksVerif
